import Mathlib

/-!
Verification of the Finansista market-data resilience layer.

The TypeScript source is shallowly embedded in Lean:

* Asynchronous functions returning promises become pure functions returning
  `Except Err _`; a rejected promise is the `.error` case.
* SQLite tables become Lean lists of row structures; each SQL statement of the
  source is embedded as a pure function on those lists.  `INSERT OR REPLACE`
  removes the rows matching the table's natural `UNIQUE` key and appends the
  new row.
* ISO-8601 timestamps and `YYYY-MM-DD` dates compare lexicographically exactly
  when they compare chronologically, so they are embedded as `Nat` instants /
  day numbers; every comparison in the source is a string comparison that this
  ordering reproduces faithfully.
* JS numbers (prices, quantities, FX rates) are embedded as `ℚ`.
* Provider method calls (network I/O) are embedded as explicit task
  environments `Provider → … → Except Err _` passed to each service function;
  the list of providers actually invoked during a call is computed by an
  explicit trace function so that "no outbound provider call" is a provable
  statement.
-/

namespace Finansista

/-- Errors thrown by the backend.  `providerError` embeds the `ProviderError`
class of `providers/base.ts`; `genericError` embeds any other `Error`.  Both
are `instanceof Error` in the source. -/
inductive Err where
  | providerError : String → Err
  | genericError : String → Err
deriving DecidableEq, Repr

/-- Loop of `fetchWithProviders` (`marketDataService.ts` lines 11-21): the
`Option Err` argument is the mutable `lastError` variable (`none` = `null`). -/
def fetchWithProvidersGo {P T : Type} (task : P → Except Err T) :
    List P → Option Err → Except Err (P × T)
  | [], none => .error (.providerError "No providers configured")
  | [], some e => .error e
  | p :: rest, _ =>
    match task p with
    | .ok result => .ok (p, result)
    | .error e => fetchWithProvidersGo task rest (some e)

/-- Embedding of `fetchWithProviders` (`marketDataService.ts` lines 7-22):
try each provider in order, return the first success together with the
provider, rethrow the last error on exhaustion, and raise a
`No providers configured` provider error when the list is empty. -/
def fetchWithProviders {P T : Type} (providers : List P) (task : P → Except Err T) :
    Except Err (P × T) :=
  fetchWithProvidersGo task providers none

/-- The providers whose `task` is actually invoked by `fetchWithProviders`:
every provider up to and including the first success (all of them when none
succeeds).  This is the call trace of the loop at lines 12-19. -/
def providersTried {P T : Type} (providers : List P) (task : P → Except Err T) :
    List P :=
  match providers with
  | [] => []
  | p :: rest =>
    match task p with
    | .ok _ => [p]
    | .error _ => p :: providersTried rest task

theorem fetchGo_ok_of_prefix_fails {P T : Type} (task : P → Except Err T)
    (fails : List P) (p : P) (rest : List P) (r : T)
    (hf : ∀ q ∈ fails, (task q).isOk = false) (hp : task p = .ok r) :
    ∀ acc, fetchWithProvidersGo task (fails ++ p :: rest) acc = .ok (p, r) := by
  induction fails with
  | nil =>
    intro acc
    simp [fetchWithProvidersGo, hp]
  | cons q qs ih =>
    intro acc
    have hq : (task q).isOk = false := hf q (by simp)
    cases hq' : task q with
    | ok v => rw [hq'] at hq; simp [Except.isOk, Except.toBool] at hq
    | error e =>
      have := ih (fun x hx => hf x (by simp [hx]))
      simp only [List.cons_append, fetchWithProvidersGo, hq']
      exact this (some e)

theorem providersTried_of_prefix_fails {P T : Type} (task : P → Except Err T)
    (fails : List P) (p : P) (rest : List P) (r : T)
    (hf : ∀ q ∈ fails, (task q).isOk = false) (hp : task p = .ok r) :
    providersTried (fails ++ p :: rest) task = fails ++ [p] := by
  induction fails with
  | nil => simp [providersTried, hp]
  | cons q qs ih =>
    have hq : (task q).isOk = false := hf q (by simp)
    cases hq' : task q with
    | ok v => rw [hq'] at hq; simp [Except.isOk, Except.toBool] at hq
    | error e =>
      have := ih (fun x hx => hf x (by simp [hx]))
      simp only [List.cons_append, providersTried, hq']
      exact congrArg (List.cons q) this

theorem fetchGo_all_fail {P T : Type} (task : P → Except Err T)
    (init : List P) (p : P) (e : Err)
    (hf : ∀ q ∈ init ++ [p], (task q).isOk = false) (hp : task p = .error e) :
    ∀ acc, fetchWithProvidersGo task (init ++ [p]) acc = .error e := by
  induction init with
  | nil =>
    intro acc
    simp [fetchWithProvidersGo, hp]
  | cons q qs ih =>
    intro acc
    have hq : (task q).isOk = false := hf q (by simp)
    cases hq' : task q with
    | ok v => rw [hq'] at hq; simp [Except.isOk, Except.toBool] at hq
    | error e' =>
      have := ih (fun x hx => hf x (by simp at hx ⊢; tauto))
      simp only [List.cons_append, fetchWithProvidersGo, hq']
      exact this (some e')

/-- C1: `fetchWithProviders` tries the providers strictly in list order.  With
an empty chain it raises the `No providers configured` provider error; when a
prefix of providers fails and the next provider `p` succeeds with `r`, the call
returns `.ok (p, r)` and the providers invoked are exactly that failing prefix
followed by `p` — no later provider is invoked; when every provider fails, the
last recorded error (the last provider's error) is raised; in particular, when
provider 1 fails and provider 2 succeeds, the returned provider is provider 2
and provider 1 is invoked exactly once. -/
theorem C1_fetchWithProviders_first_success :
    (∀ task : Nat → Except Err Nat,
      fetchWithProviders ([] : List Nat) task
        = .error (.providerError "No providers configured"))
    ∧ (∀ (P T : Type) (task : P → Except Err T) (fails rest : List P) (p : P) (r : T),
        (∀ q ∈ fails, (task q).isOk = false) → task p = .ok r →
        fetchWithProviders (fails ++ p :: rest) task = .ok (p, r)
          ∧ providersTried (fails ++ p :: rest) task = fails ++ [p])
    ∧ (∀ (P T : Type) (task : P → Except Err T) (init : List P) (p : P) (e : Err),
        (∀ q ∈ init ++ [p], (task q).isOk = false) → task p = .error e →
        fetchWithProviders (init ++ [p]) task = .error e)
    ∧ (∀ (P T : Type) [DecidableEq P] (task : P → Except Err T) (p₁ p₂ : P)
        (rest : List P) (e : Err) (r : T),
        task p₁ = .error e → task p₂ = .ok r →
        fetchWithProviders (p₁ :: p₂ :: rest) task = .ok (p₂, r)
          ∧ (providersTried (p₁ :: p₂ :: rest) task).count p₁ = 1) := by
  refine ⟨fun task => rfl, ?_, ?_, ?_⟩
  · intro P T task fails rest p r hf hp
    exact ⟨fetchGo_ok_of_prefix_fails task fails p rest r hf hp none,
      providersTried_of_prefix_fails task fails p rest r hf hp⟩
  · intro P T task init p e hf hp
    exact fetchGo_all_fail task init p e hf hp none
  · intro P T _ task p₁ p₂ rest e r h₁ h₂
    have hne : p₁ ≠ p₂ := by
      intro h
      rw [h, h₂] at h₁
      exact Except.noConfusion h₁
    constructor
    · have hf : ∀ q ∈ [p₁], (task q).isOk = false := by
        intro q hq
        simp at hq
        rw [hq, h₁]
        rfl
      exact fetchGo_ok_of_prefix_fails task [p₁] p₂ rest r hf h₂ none
    · simp only [providersTried, h₁, h₂]
      simp [List.count_cons, hne]

/-- Concrete provider task used to witness C1: provider `2` succeeds with `20`,
every other provider fails. -/
def c1Task : Nat → Except Err Nat :=
  fun n => if n = 2 then .ok 20 else .error (.providerError "quota exceeded")

theorem C1_witness :
    fetchWithProviders [1, 2, 5] c1Task = .ok (2, 20)
      ∧ (providersTried [1, 2, 5] c1Task).count 1 = 1 :=
  C1_fetchWithProviders_first_success.2.2.2 Nat Nat c1Task 1 2 [5]
    (.providerError "quota exceeded") 20 rfl rfl


/-! ## Market registry (`config/markets.ts`) -/

/-- A market definition row of `SUPPORTED_MARKETS` in `config/markets.ts`. -/
structure MarketDefinition where
  code : String
  label : String
  region : String
  assetType : String
  providerExchange : String
  currency : String
  defaultQuote : Option String := none
  aliases : List String := []
  notes : Option String := none
deriving DecidableEq, Repr

/-- The supported-market registry (`config/markets.ts` lines 16-125). -/
def SUPPORTED_MARKETS : List MarketDefinition :=
  [ { code := "NASDAQ", label := "NASDAQ (US)", region := "US",
      assetType := "equity", providerExchange := "NASDAQ", currency := "USD" },
    { code := "NYSE", label := "NYSE (US)", region := "US",
      assetType := "equity", providerExchange := "NYSE", currency := "USD" },
    { code := "AMEX", label := "NYSE American (AMEX)", region := "US",
      assetType := "equity", providerExchange := "AMEX", currency := "USD" },
    { code := "XLON", label := "London Stock Exchange (XLON)", region := "UK",
      assetType := "equity", providerExchange := "XLON", currency := "GBP",
      aliases := ["LSE"] },
    { code := "XWAR", label := "Warsaw Stock Exchange (XWAR/GPW)", region := "EU",
      assetType := "equity", providerExchange := "XWAR", currency := "PLN",
      aliases := ["GPW"] },
    { code := "XETR", label := "XETRA (Germany)", region := "EU",
      assetType := "equity", providerExchange := "XETR", currency := "EUR" },
    { code := "XPAR", label := "Euronext Paris (XPAR)", region := "EU",
      assetType := "equity", providerExchange := "XPAR", currency := "EUR" },
    { code := "XAMS", label := "Euronext Amsterdam (XAMS)", region := "EU",
      assetType := "equity", providerExchange := "XAMS", currency := "EUR" },
    { code := "XBRU", label := "Euronext Brussels (XBRU)", region := "EU",
      assetType := "equity", providerExchange := "XBRU", currency := "EUR" },
    { code := "XMIL", label := "Euronext Milan (XMIL)", region := "EU",
      assetType := "equity", providerExchange := "XMIL", currency := "EUR" },
    { code := "XMAD", label := "Bolsa de Madrid (XMAD)", region := "EU",
      assetType := "equity", providerExchange := "XMAD", currency := "EUR" },
    { code := "XLIS", label := "Euronext Lisbon (XLIS)", region := "EU",
      assetType := "equity", providerExchange := "XLIS", currency := "EUR" },
    { code := "BINANCE", label := "Binance (Crypto)", region := "CRYPTO",
      assetType := "crypto", providerExchange := "Binance", currency := "USD",
      defaultQuote := some "USDT",
      notes := some "Use pairs like BTC/USDT; BTC will default to BTC/USDT." } ]

/-- Charwise embedding of JS `String.prototype.toUpperCase()` (equivalently
Lean `String.toUpper`), written on the character list so that it reduces in
the kernel. -/
def upperStr (s : String) : String :=
  ⟨s.data.map Char.toUpper⟩

/-- Charwise embedding of JS `String.prototype.includes(c)` for a single
character `c` (equivalently Lean `String.contains`). -/
def strContains (s : String) (c : Char) : Bool :=
  s.data.contains c

/-- JS `a || b` for an optional string `a`: `null`/`undefined` and the empty
string are falsy, so they yield the default. -/
def jsOr (o : Option String) (d : String) : String :=
  match o with
  | some s => if s = "" then d else s
  | none => d

/-- JS `a || b` for a plain string `a`: only the empty string is falsy. -/
def jsOrS (s d : String) : String :=
  if s = "" then d else s

/-- JS `Map.get` after a sequence of `Map.set`s, on the association list of the
sets performed: the last binding of a key wins. -/
def lookupLast {A B : Type} [BEq A] (l : List (A × B)) (k : A) : Option B :=
  l.foldl (fun acc kv => if kv.1 == k then some kv.2 else acc) none

/-- The `marketIndex` map of `config/markets.ts` lines 127-132: every market is
registered under its upper-cased code and under each upper-cased alias. -/
def marketIndex : List (String × MarketDefinition) :=
  SUPPORTED_MARKETS.foldl
    (fun acc m =>
      (acc ++ [(upperStr m.code, m)]) ++ m.aliases.map (fun a => (upperStr a, m)))
    []

/-- Embedding of `getMarketDefinition` (`config/markets.ts` lines 134-136). -/
def getMarketDefinition (marketCode : String) : Option MarketDefinition :=
  lookupLast marketIndex (upperStr marketCode)

/-- Embedding of `getSupportedMarkets` (`config/markets.ts` line 138). -/
def getSupportedMarkets : List MarketDefinition :=
  SUPPORTED_MARKETS

/-! ## Ticker normalization (`validationService.ts` lines 70-79) -/

/-- Embedding of `normalizeTicker`: on a crypto market a ticker with no `/`
pair separator gets the market default quote currency (`|| 'USD'`) appended;
every other ticker is returned unchanged. -/
def normalizeTicker (ticker market : String) : String :=
  match getMarketDefinition market with
  | some marketDefinition =>
    if marketDefinition.assetType = "crypto" then
      if strContains ticker '/' then ticker
      else ticker ++ "/" ++ jsOr marketDefinition.defaultQuote "USD"
    else ticker
  | none => ticker

/-- C9: crypto ticker normalization.  On a market of the crypto asset class, a
ticker containing no `/` has the market default quote currency appended (after
the caller-side uppercasing of `validateSymbol`, so `btc` on `BINANCE`
normalizes to `BTC/USDT`), a ticker already containing `/` is left unmodified,
and on a non-crypto market `normalizeTicker` leaves the (uppercased) ticker
unchanged. -/
theorem C9_normalizeTicker_crypto :
    (∀ (t m : String) (md : MarketDefinition),
        getMarketDefinition m = some md → md.assetType = "crypto" →
        strContains t '/' = false →
        normalizeTicker t m = t ++ "/" ++ jsOr md.defaultQuote "USD")
    ∧ (∀ (t m : String) (md : MarketDefinition),
        getMarketDefinition m = some md → md.assetType = "crypto" →
        strContains t '/' = true → normalizeTicker t m = t)
    ∧ (∀ (t m : String) (md : MarketDefinition),
        getMarketDefinition m = some md → md.assetType ≠ "crypto" →
        normalizeTicker t m = t)
    ∧ normalizeTicker (upperStr "btc") "BINANCE" = "BTC/USDT"
    ∧ normalizeTicker "BTC/ETH" "BINANCE" = "BTC/ETH" := by
  refine ⟨?_, ?_, ?_, by decide, by decide⟩
  · intro t m md hm hc hs
    simp [normalizeTicker, hm, hc, hs]
  · intro t m md hm hc hs
    simp [normalizeTicker, hm, hc, hs]
  · intro t m md hm hc
    simp [normalizeTicker, hm, hc]

theorem C9_witness :
    normalizeTicker "ETH" "BINANCE" = "ETH" ++ "/" ++ jsOr (some "USDT") "USD" :=
  C9_normalizeTicker_crypto.1 "ETH" "BINANCE"
    { code := "BINANCE", label := "Binance (Crypto)", region := "CRYPTO",
      assetType := "crypto", providerExchange := "Binance", currency := "USD",
      defaultQuote := some "USDT",
      notes := some "Use pairs like BTC/USDT; BTC will default to BTC/USDT." }
    (by decide) rfl (by decide)


/-! ## SQL `ORDER BY … DESC LIMIT 1` scans -/

/-- One step of an SQL `ORDER BY … DESC LIMIT 1` scan: `replaces b r = true`
when row `r` sorts strictly ahead of the current best row `b`. -/
def pickMaxBy {A : Type} (replaces : A → A → Bool) : Option A → A → Option A
  | none, r => some r
  | some b, r => if replaces b r then some r else some b

/-- SQL `ORDER BY … DESC LIMIT 1` over the rows `l`, where `replaces` is the
strict "sorts ahead of" relation of the `ORDER BY` clause. -/
def selectTop {A : Type} (replaces : A → A → Bool) (l : List A) : Option A :=
  l.foldl (pickMaxBy replaces) none

theorem foldl_pickMaxBy_mem {A : Type} (replaces : A → A → Bool) :
    ∀ (l : List A) (acc : Option A) (m : A),
      l.foldl (pickMaxBy replaces) acc = some m → m ∈ l ∨ acc = some m := by
  intro l
  induction l with
  | nil => intro acc m h; exact Or.inr h
  | cons r t ih =>
    intro acc m h
    rcases ih (pickMaxBy replaces acc r) m h with hmem | hacc
    · exact Or.inl (List.mem_cons_of_mem r hmem)
    · cases acc with
      | none =>
        simp [pickMaxBy] at hacc
        exact Or.inl (hacc ▸ List.mem_cons_self r t)
      | some b =>
        by_cases hb : replaces b r = true
        · simp [pickMaxBy, hb] at hacc
          exact Or.inl (hacc ▸ List.mem_cons_self r t)
        · simp [pickMaxBy, hb] at hacc
          exact Or.inr (congrArg some hacc)

theorem selectTop_mem {A : Type} (replaces : A → A → Bool) (l : List A) (m : A)
    (h : selectTop replaces l = some m) : m ∈ l := by
  rcases foldl_pickMaxBy_mem replaces l none m h with hmem | hacc
  · exact hmem
  · exact Option.noConfusion hacc

theorem foldl_pickMaxBy_some {A : Type} (replaces : A → A → Bool) :
    ∀ (l : List A) (b : A), ∃ m, l.foldl (pickMaxBy replaces) (some b) = some m := by
  intro l
  induction l with
  | nil => intro b; exact ⟨b, rfl⟩
  | cons r t ih =>
    intro b
    by_cases hb : replaces b r = true
    · rcases ih r with ⟨m, hm⟩
      exact ⟨m, by simpa [pickMaxBy, hb] using hm⟩
    · rcases ih b with ⟨m, hm⟩
      exact ⟨m, by simpa [pickMaxBy, hb] using hm⟩

theorem selectTop_isSome {A : Type} (replaces : A → A → Bool) (x : A) (l : List A) :
    ∃ m, selectTop replaces (x :: l) = some m := by
  unfold selectTop
  simpa [pickMaxBy] using foldl_pickMaxBy_some replaces l x

theorem foldl_pickMaxBy_spec {A : Type} (replaces : A → A → Bool)
    (htrans : ∀ a b c, replaces a b = true → replaces b c = true → replaces a c = true)
    (hirr : ∀ a, replaces a a = false) :
    ∀ (l : List A) (b : A), ∃ m, l.foldl (pickMaxBy replaces) (some b) = some m
      ∧ (m = b ∨ (m ∈ l ∧ replaces b m = true))
      ∧ (∀ r ∈ l, replaces m r = false) := by
  intro l
  induction l with
  | nil =>
    intro b
    exact ⟨b, rfl, Or.inl rfl, by intro r hr; cases hr⟩
  | cons r t ih =>
    intro b
    by_cases hbr : replaces b r = true
    · rcases ih r with ⟨m, hfold, hmem, hmax⟩
      refine ⟨m, by simpa [pickMaxBy, hbr] using hfold, ?_, ?_⟩
      · rcases hmem with hm | ⟨hmt, hrm⟩
        · exact Or.inr ⟨by rw [hm]; exact List.mem_cons_self r t, by rw [hm]; exact hbr⟩
        · exact Or.inr ⟨List.mem_cons_of_mem r hmt, htrans b r m hbr hrm⟩
      · intro x hx
        rcases List.mem_cons.mp hx with hxr | hxt
        · rcases hmem with hm | ⟨hmt, hrm⟩
          · rw [hm, hxr]
            exact hirr r
          · have hxm : replaces x m = true := by rw [hxr]; exact hrm
            cases h : replaces m x with
            | true => exact absurd (htrans x m x hxm h) (by simp [hirr x])
            | false => rfl
        · exact hmax x hxt
    · have hbr' : replaces b r = false := by
        cases h : replaces b r with
        | true => exact absurd h hbr
        | false => rfl
      rcases ih b with ⟨m, hfold, hmem, hmax⟩
      refine ⟨m, by simpa [pickMaxBy, hbr'] using hfold, ?_, ?_⟩
      · rcases hmem with hm | ⟨hmt, hbm⟩
        · exact Or.inl hm
        · exact Or.inr ⟨List.mem_cons_of_mem r hmt, hbm⟩
      · intro x hx
        rcases List.mem_cons.mp hx with hxr | hxt
        · rcases hmem with hm | ⟨hmt, hbm⟩
          · rw [hm, hxr]
            exact hbr'
          · cases h : replaces m x with
            | true =>
              have hbx : replaces b x = true := htrans b m x hbm h
              rw [hxr] at hbx
              exact absurd hbx (by simp [hbr'])
            | false => rfl
        · exact hmax x hxt

theorem selectTop_spec {A : Type} (replaces : A → A → Bool)
    (htrans : ∀ a b c, replaces a b = true → replaces b c = true → replaces a c = true)
    (hirr : ∀ a, replaces a a = false) (x : A) (l : List A) :
    ∃ m, selectTop replaces (x :: l) = some m ∧ m ∈ x :: l
      ∧ ∀ r ∈ x :: l, replaces m r = false := by
  rcases foldl_pickMaxBy_spec replaces htrans hirr l x with ⟨m, hfold, hmem, hmax⟩
  refine ⟨m, hfold, ?_, ?_⟩
  · rcases hmem with hm | ⟨hml, _⟩
    · rw [hm]
      exact List.mem_cons_self x l
    · exact List.mem_cons_of_mem x hml
  · intro r hr
    rcases List.mem_cons.mp hr with hrx | hrl
    · rcases hmem with hm | ⟨_, hxm⟩
      · rw [hm, hrx]
        exact hirr x
      · have h' : replaces m x = false → replaces m r = false := by
          intro hf
          rw [hrx]
          exact hf
        cases h : replaces m x with
        | true => exact absurd (htrans x m x hxm h) (by simp [hirr x])
        | false => exact h' h
    · exact hmax r hrl

/-! ## Symbol validation cache (`validationService.ts`) -/

/-- A provider in the chain: only its `name` is observable state here; its
network operations are supplied as explicit task environments. -/
structure Provider where
  name : String
deriving DecidableEq, Repr

/-- A row of the `market_symbols` table (natural key
`(ticker, market, provider)`). -/
structure SymbolRow where
  ticker : String
  market : String
  name : Option String
  currency : Option String
  exchange : Option String
  provider : String
  last_verified_at : Nat
deriving DecidableEq, Repr

/-- The `SymbolSearchResult` type of `providers/base.ts`. -/
structure SymbolSearchResult where
  ticker : String
  market : String
  name : Option String
  currency : Option String
  exchange : Option String
deriving DecidableEq, Repr

/-- Strict "newer" order of `ORDER BY last_verified_at DESC LIMIT 1`. -/
def symbolRowNewer (b r : SymbolRow) : Bool :=
  decide (b.last_verified_at < r.last_verified_at)

/-- The `SELECT … FROM market_symbols WHERE ticker = ? AND market = ?
ORDER BY last_verified_at DESC LIMIT 1` query shared by `getCachedValidation`
(lines 8-15) and `cacheValidation` (lines 51-59). -/
def latestSymbolRow (store : List SymbolRow) (ticker market : String) :
    Option SymbolRow :=
  selectTop symbolRowNewer
    (store.filter (fun r => r.ticker == ticker && r.market == market))

/-- Embedding of `getCachedValidation` (`validationService.ts` lines 7-34):
the latest matching row, provided it is within the validation TTL (the cutoff
is `now - ttlDays`; a row is fresh when its `last_verified_at` is not before
the cutoff). -/
def getCachedValidation (store : List SymbolRow) (ticker market : String)
    (now ttlDays : Nat) : Option SymbolRow :=
  match latestSymbolRow store ticker market with
  | none => none
  | some row => if row.last_verified_at < now - ttlDays then none else some row

/-- Embedding of `cacheValidation` (`validationService.ts` lines 36-68): read
the latest cached row for the key, keep its name when non-null
(`existing?.name ?? name`), then `INSERT OR REPLACE` the row keyed
`(ticker, market, provider)` with `last_verified_at = now`. -/
def cacheValidation (store : List SymbolRow) (ticker market : String)
    (name currency exchange : Option String) (provider : String) (now : Nat) :
    List SymbolRow :=
  let existing := latestSymbolRow store ticker market
  let nameToStore : Option String :=
    match existing with
    | some row =>
      match row.name with
      | some n => some n
      | none => name
    | none => name
  store.filter (fun r =>
      !(r.ticker == ticker && r.market == market && r.provider == provider))
    ++ [{ ticker := ticker, market := market, name := nameToStore,
          currency := currency, exchange := exchange, provider := provider,
          last_verified_at := now }]

/-- Embedding of `orderProvidersForMarket` (`validationService.ts` lines
81-86): for the markets preferring the free daily source, the JS stable sort
with the comparator of line 85 moves every `STOOQ` provider to the front while
keeping the relative order within each group. -/
def orderProvidersForMarket (providers : List Provider) (market : String) :
    List Provider :=
  let normalized := upperStr market
  if ["XWAR", "GPW", "XLON", "XETR"].contains normalized then
    providers.filter (fun p => p.name == "STOOQ")
      ++ providers.filter (fun p => !(p.name == "STOOQ"))
  else providers

/-- The result object of `validateSymbol`; fields absent from a branch of the
source are `none`. -/
structure ValidateResult where
  valid : Bool
  source : String
  reason : Option String := none
  supported_markets : Option (List MarketDefinition) := none
  symbol : Option SymbolSearchResult := none
  normalized : Option (String × String) := none
deriving DecidableEq, Repr

/-- The cache-hit branch of `validateSymbol` returns the cached row itself;
this is its shape as a search result. -/
def symbolRowToResult (row : SymbolRow) : SymbolSearchResult :=
  { ticker := row.ticker, market := row.market, name := row.name,
    currency := row.currency, exchange := row.exchange }

/-- The provider loop of `validateSymbol` (`validationService.ts` lines
124-154): a provider error or a null result advances to the next provider
(updating `lastProvider`), any other error is rethrown, and the first non-null
match is cached and returned.  The third component is the trace of providers
whose `searchSymbol` was invoked. -/
def validateSymbolLoop
    (search : Provider → String → String → Except Err (Option SymbolSearchResult))
    (normalizedTicker normalizedMarket providerExchange : String) (now : Nat) :
    List Provider → String → List SymbolRow →
      Except Err ValidateResult × List SymbolRow × List Provider
  | [], lastProvider, store =>
    (.ok { valid := false, source := lastProvider, reason := some "not_found",
           normalized := some (normalizedTicker, normalizedMarket) }, store, [])
  | p :: rest, _, store =>
    match search p normalizedTicker providerExchange with
    | .ok (some result) =>
      let store' := cacheValidation store (upperStr result.ticker) normalizedMarket
        result.name result.currency result.exchange p.name now
      (.ok { valid := true, source := p.name,
             symbol := some { result with
                                ticker := upperStr result.ticker,
                                market := normalizedMarket },
             normalized := some (normalizedTicker, normalizedMarket) },
       store', [p])
    | .ok none =>
      let next := validateSymbolLoop search normalizedTicker normalizedMarket
        providerExchange now rest p.name store
      (next.1, next.2.1, p :: next.2.2)
    | .error (.providerError _) =>
      let next := validateSymbolLoop search normalizedTicker normalizedMarket
        providerExchange now rest p.name store
      (next.1, next.2.1, p :: next.2.2)
    | .error (.genericError msg) => (.error (.genericError msg), store, [p])

/-- Embedding of `validateSymbol` (`validationService.ts` lines 98-162).  The
returned triple is (result-or-error, updated `market_symbols` store, trace of
providers whose `searchSymbol` was invoked). -/
def validateSymbol
    (search : Provider → String → String → Except Err (Option SymbolSearchResult))
    (providers : List Provider) (store : List SymbolRow)
    (ticker market : String) (now ttlDays : Nat) :
    Except Err ValidateResult × List SymbolRow × List Provider :=
  match getMarketDefinition market with
  | none =>
    (.ok { valid := false, source := "LOCAL", reason := some "unsupported_market",
           supported_markets := some getSupportedMarkets }, store, [])
  | some marketDefinition =>
    let normalizedMarket := upperStr marketDefinition.code
    let normalizedTicker := normalizeTicker (upperStr ticker) normalizedMarket
    match getCachedValidation store normalizedTicker normalizedMarket now ttlDays with
    | some cached =>
      (.ok { valid := true, source := "CACHE",
             symbol := some (symbolRowToResult cached) }, store, [])
    | none =>
      validateSymbolLoop search normalizedTicker normalizedMarket
        marketDefinition.providerExchange now
        (orderProvidersForMarket providers normalizedMarket) "UNKNOWN" store

/-- C8: for a market code not present in the supported-market registry,
`validateSymbol` returns the structured failure carrying
`reason = unsupported_market` and the full supported-market list as a value
(no exception), leaves the validation cache unchanged, and invokes no
provider. -/
theorem C8_validateSymbol_unsupported_market :
    ∀ (search : Provider → String → String → Except Err (Option SymbolSearchResult))
      (providers : List Provider) (store : List SymbolRow)
      (ticker market : String) (now ttlDays : Nat),
      getMarketDefinition market = none →
      validateSymbol search providers store ticker market now ttlDays =
        (.ok { valid := false, source := "LOCAL",
               reason := some "unsupported_market",
               supported_markets := some getSupportedMarkets }, store, []) := by
  intro search providers store ticker market now ttlDays h
  simp [validateSymbol, h]

theorem C8_witness :
    validateSymbol (fun _ _ _ => .error (.providerError "network down"))
        [{ name := "TWELVE_DATA" }, { name := "STOOQ" }] [] "AAPL" "MOON" 100 7 =
      (.ok { valid := false, source := "LOCAL",
             reason := some "unsupported_market",
             supported_markets := some getSupportedMarkets }, [], []) :=
  C8_validateSymbol_unsupported_market
    (fun _ _ _ => .error (.providerError "network down"))
    [{ name := "TWELVE_DATA" }, { name := "STOOQ" }] [] "AAPL" "MOON" 100 7
    (by decide)


theorem latestSymbolRow_append_fresh (store : List SymbolRow) (t m : String)
    (new : SymbolRow) (ht : new.ticker = t) (hm : new.market = m)
    (hfresh : ∀ r ∈ store, r.ticker = t → r.market = m →
        r.last_verified_at < new.last_verified_at) :
    latestSymbolRow (store ++ [new]) t m = some new := by
  unfold latestSymbolRow selectTop
  rw [List.filter_append]
  have hnew : List.filter (fun r => r.ticker == t && r.market == m) [new] = [new] := by
    simp [ht, hm]
  rw [hnew, List.foldl_append]
  cases hsel : List.foldl (pickMaxBy symbolRowNewer) none
      (List.filter (fun r => r.ticker == t && r.market == m) store) with
  | none => rfl
  | some b =>
    have hb := selectTop_mem symbolRowNewer
      (List.filter (fun r => r.ticker == t && r.market == m) store) b hsel
    have hbs : b ∈ store := (List.mem_filter.mp hb).1
    have hbp : (b.ticker == t && b.market == m) = true := (List.mem_filter.mp hb).2
    have hbt : b.ticker = t := by
      have := (Bool.and_eq_true _ _).mp hbp
      exact beq_iff_eq.mp this.1
    have hbm : b.market = m := by
      have := (Bool.and_eq_true _ _).mp hbp
      exact beq_iff_eq.mp this.2
    have hlt : b.last_verified_at < new.last_verified_at := hfresh b hbs hbt hbm
    simp [pickMaxBy, symbolRowNewer, hlt]

/-- C10: once the symbol-validation cache holds a row with a non-null display
name for a `(ticker, market)` key, any later `cacheValidation` write for that
key keeps that name: the freshest row after the write still carries the stored
name, whatever different or empty name the provider supplied; and a key whose
freshest row has a null name (or no row at all) receives the provider-supplied
name.  The clock hypothesis says the write happens strictly after every
existing row's `last_verified_at`, as `datetime('now')` does. -/
theorem C10_cacheValidation_preserves_name :
    (∀ (store : List SymbolRow) (t m : String)
       (name currency exchange : Option String) (provider : String) (now : Nat)
       (row : SymbolRow) (n : String),
      latestSymbolRow store t m = some row → row.name = some n →
      (∀ r ∈ store, r.ticker = t → r.market = m → r.last_verified_at < now) →
      ∃ row', latestSymbolRow
          (cacheValidation store t m name currency exchange provider now) t m
            = some row' ∧ row'.name = some n)
    ∧ (∀ (store : List SymbolRow) (t m : String)
       (name currency exchange : Option String) (provider : String) (now : Nat),
      (latestSymbolRow store t m = none
        ∨ ∃ row, latestSymbolRow store t m = some row ∧ row.name = none) →
      (∀ r ∈ store, r.ticker = t → r.market = m → r.last_verified_at < now) →
      ∃ row', latestSymbolRow
          (cacheValidation store t m name currency exchange provider now) t m
            = some row' ∧ row'.name = name) := by
  constructor
  · intro store t m name currency exchange provider now row n hlatest hname hclock
    have hcv : cacheValidation store t m name currency exchange provider now
        = store.filter (fun r =>
            !(r.ticker == t && r.market == m && r.provider == provider))
          ++ [{ ticker := t, market := m, name := some n, currency := currency,
                exchange := exchange, provider := provider,
                last_verified_at := now }] := by
      simp only [cacheValidation, hlatest, hname]
    refine ⟨{ ticker := t, market := m, name := some n, currency := currency,
              exchange := exchange, provider := provider,
              last_verified_at := now }, ?_, rfl⟩
    rw [hcv]
    exact latestSymbolRow_append_fresh _ t m _ rfl rfl
      (fun r hr h1 h2 => hclock r (List.mem_of_mem_filter hr) h1 h2)
  · intro store t m name currency exchange provider now hnull hclock
    have hcv : cacheValidation store t m name currency exchange provider now
        = store.filter (fun r =>
            !(r.ticker == t && r.market == m && r.provider == provider))
          ++ [{ ticker := t, market := m, name := name, currency := currency,
                exchange := exchange, provider := provider,
                last_verified_at := now }] := by
      rcases hnull with hnone | ⟨row, hsome, hname⟩
      · simp only [cacheValidation, hnone]
      · simp only [cacheValidation, hsome, hname]
    refine ⟨{ ticker := t, market := m, name := name, currency := currency,
              exchange := exchange, provider := provider,
              last_verified_at := now }, ?_, rfl⟩
    rw [hcv]
    exact latestSymbolRow_append_fresh _ t m _ rfl rfl
      (fun r hr h1 h2 => hclock r (List.mem_of_mem_filter hr) h1 h2)

/-- Concrete `market_symbols` store used to witness C10: one row whose display
name is already set. -/
def c10Store : List SymbolRow :=
  [{ ticker := "CDR", market := "XWAR", name := some "CD Projekt S.A.",
     currency := some "PLN", exchange := some "XWAR", provider := "STOOQ",
     last_verified_at := 5 }]

theorem C10_witness :
    ∃ row', latestSymbolRow
        (cacheValidation c10Store "CDR" "XWAR" (some "CD PROJEKT RED")
          (some "PLN") (some "XWAR") "TWELVE_DATA" 9) "CDR" "XWAR"
          = some row' ∧ row'.name = some "CD Projekt S.A." :=
  C10_cacheValidation_preserves_name.1 c10Store "CDR" "XWAR"
    (some "CD PROJEKT RED") (some "PLN") (some "XWAR") "TWELVE_DATA" 9
    { ticker := "CDR", market := "XWAR", name := some "CD Projekt S.A.",
      currency := some "PLN", exchange := some "XWAR", provider := "STOOQ",
      last_verified_at := 5 }
    "CD Projekt S.A." (by decide) rfl (by decide)


/-! ## Quote cache (`marketDataService.ts`) -/

/-- A row of the `quote_cache` table (natural key
`(ticker, market, source, as_of)`). -/
structure QuoteRow where
  ticker : String
  market : String
  price : ℚ
  currency : Option String
  as_of : Nat
  source : String
  fetched_at : Nat
  expires_at : Nat
deriving DecidableEq, Repr

/-- The `QuoteResult` type of `providers/base.ts`. -/
structure QuoteResult where
  price : ℚ
  currency : Option String
  asOf : Nat
deriving DecidableEq, Repr

/-- The quote object returned by `getLatestQuote` (its common observable
fields; the cache-hit branch of the source spreads two extra row columns into
the object, which no caller reads). -/
structure QuoteOut where
  price : ℚ
  currency : Option String
  as_of : Nat
  source : String
  cached : Bool
deriving DecidableEq, Repr

/-- Embedding of `resolveExchange` (`marketDataService.ts` lines 24-27). -/
def resolveExchange (market : String) : String :=
  match getMarketDefinition market with
  | some definition => jsOrS definition.providerExchange market
  | none => market

/-- Embedding of `filterProvidersForMarket` (`marketDataService.ts` lines
29-46): `STOOQ` is dropped outside its supported markets, and for the markets
preferring it the JS stable sort with the comparator at line 42 moves `STOOQ`
to the front, keeping the relative order within each group. -/
def filterProvidersForMarket (providers : List Provider) (market : String) :
    List Provider :=
  let normalized := upperStr market
  let stooqMarkets := ["NASDAQ", "NYSE", "AMEX", "XWAR", "GPW", "XLON", "XETR"]
  let preferStooq := ["XWAR", "GPW", "XLON", "XETR"]
  let filtered := providers.filter (fun p =>
    if p.name == "STOOQ" then stooqMarkets.contains normalized else true)
  if preferStooq.contains normalized then
    filtered.filter (fun p => p.name == "STOOQ")
      ++ filtered.filter (fun p => !(p.name == "STOOQ"))
  else filtered

/-- Strict order of `ORDER BY expires_at DESC LIMIT 1`. -/
def quoteRowFresher (b r : QuoteRow) : Bool :=
  decide (b.expires_at < r.expires_at)

/-- Embedding of `getCachedQuote` (`marketDataService.ts` lines 48-67): the
freshest row of the key with `expires_at > now`. -/
def getCachedQuote (store : List QuoteRow) (ticker market : String) (now : Nat) :
    Option QuoteRow :=
  selectTop quoteRowFresher
    (store.filter (fun r =>
      r.ticker == ticker && r.market == market && decide (now < r.expires_at)))

/-- Strict order of `ORDER BY as_of DESC, fetched_at DESC LIMIT 1`. -/
def quoteRowStaler (b r : QuoteRow) : Bool :=
  decide (b.as_of < r.as_of ∨ (b.as_of = r.as_of ∧ b.fetched_at < r.fetched_at))

/-- Embedding of `getStaleQuote` (`marketDataService.ts` lines 69-88): the
most recent row for the key regardless of expiry. -/
def getStaleQuote (store : List QuoteRow) (ticker market : String) :
    Option QuoteRow :=
  selectTop quoteRowStaler
    (store.filter (fun r => r.ticker == ticker && r.market == market))

/-- Embedding of `cacheQuote` (`marketDataService.ts` lines 90-111):
`INSERT OR REPLACE` on the key `(ticker, market, source, as_of)` with
`fetched_at = now` and `expires_at = now + ttlSeconds`. -/
def cacheQuote (store : List QuoteRow) (ticker market : String) (price : ℚ)
    (currency : Option String) (asOf : Nat) (source : String)
    (now ttlSeconds : Nat) : List QuoteRow :=
  store.filter (fun r =>
      !(r.ticker == ticker && r.market == market && r.source == source
        && r.as_of == asOf))
    ++ [{ ticker := ticker, market := market, price := price,
          currency := currency, as_of := asOf, source := source,
          fetched_at := now, expires_at := now + ttlSeconds }]

/-- A row of the `price_history` table (natural key
`(ticker, market, source, interval, date)`). -/
structure HistRow where
  ticker : String
  market : String
  interval : String
  price : ℚ
  currency : Option String
  date : Nat
  source : String
  fetched_at : Nat
deriving DecidableEq, Repr

/-- Strict order of `ORDER BY date DESC LIMIT 1`. -/
def histRowLater (b r : HistRow) : Bool :=
  decide (b.date < r.date)

/-- The quote shape derived from a history row by `getLatestHistoryPrice`. -/
structure HistoryDerivedQuote where
  price : ℚ
  currency : Option String
  as_of : Nat
  source : String
deriving DecidableEq, Repr

/-- Embedding of `getLatestHistoryPrice` (`marketDataService.ts` lines
223-248): the newest `1d` history row of the key, viewed as a quote. -/
def getLatestHistoryPrice (store : List HistRow) (ticker market : String) :
    Option HistoryDerivedQuote :=
  match selectTop histRowLater
      (store.filter (fun r =>
        r.ticker == ticker && r.market == market && r.interval == "1d")) with
  | none => none
  | some row =>
    some { price := row.price, currency := row.currency,
           as_of := row.date, source := row.source }

/-- Embedding of `getLatestQuote` (`marketDataService.ts` lines 113-174).
The returned triple is (quote-or-error, updated `quote_cache` store, trace of
providers whose `getQuote` was invoked). -/
def getLatestQuote (quoteTask : Provider → String → String → Except Err QuoteResult)
    (providers : List Provider) (qstore : List QuoteRow) (hstore : List HistRow)
    (ticker market : String) (forceRefresh : Bool) (now ttlSeconds : Nat) :
    Except Err QuoteOut × List QuoteRow × List Provider :=
  let cached := if forceRefresh then none else getCachedQuote qstore ticker market now
  match cached with
  | some row =>
    (.ok { price := row.price, currency := row.currency, as_of := row.as_of,
           source := row.source, cached := true }, qstore, [])
  | none =>
    let marketProviders := filterProvidersForMarket providers market
    let exchange := resolveExchange market
    let task := fun p => quoteTask p ticker exchange
    match fetchWithProviders marketProviders task with
    | .ok (p, result) =>
      (.ok { price := result.price, currency := result.currency,
             as_of := result.asOf, source := p.name, cached := false },
       cacheQuote qstore ticker market result.price result.currency result.asOf
         p.name now ttlSeconds,
       providersTried marketProviders task)
    | .error e =>
      match getStaleQuote qstore ticker market with
      | some stale =>
        (.ok { price := stale.price, currency := stale.currency,
               as_of := stale.as_of, source := stale.source, cached := true },
         qstore, providersTried marketProviders task)
      | none =>
        match getLatestHistoryPrice hstore ticker market with
        | some history =>
          (.ok { price := history.price, currency := history.currency,
                 as_of := history.as_of,
                 source := jsOrS history.source "HISTORY", cached := true },
           qstore, providersTried marketProviders task)
        | none => (.error e, qstore, providersTried marketProviders task)

/-- C3: when the cache holds a non-expired quote row for the key, the
freshest-non-expired lookup hits, and `getLatestQuote` without `forceRefresh`
returns that cached row marked `cached = true`, leaves the store unchanged and
invokes no provider. -/
theorem C3_getLatestQuote_fresh_cache_hit :
    (∀ (qstore : List QuoteRow) (t m : String) (now : Nat) (r : QuoteRow),
      r ∈ qstore → r.ticker = t → r.market = m → now < r.expires_at →
      ∃ row, getCachedQuote qstore t m now = some row
        ∧ row.ticker = t ∧ row.market = m ∧ now < row.expires_at)
    ∧ (∀ (quoteTask : Provider → String → String → Except Err QuoteResult)
        (providers : List Provider) (qstore : List QuoteRow)
        (hstore : List HistRow) (t m : String) (now ttl : Nat) (row : QuoteRow),
      getCachedQuote qstore t m now = some row →
      getLatestQuote quoteTask providers qstore hstore t m false now ttl =
        (.ok { price := row.price, currency := row.currency, as_of := row.as_of,
               source := row.source, cached := true }, qstore, [])) := by
  constructor
  · intro qstore t m now r hr ht hm hlt
    have hmem : r ∈ qstore.filter (fun r =>
        r.ticker == t && r.market == m && decide (now < r.expires_at)) :=
      List.mem_filter.mpr ⟨hr, by simp [ht, hm, hlt]⟩
    have hne := List.ne_nil_of_mem hmem
    obtain ⟨x, xs, hx⟩ := List.exists_cons_of_ne_nil hne
    obtain ⟨row, hrow⟩ := selectTop_isSome quoteRowFresher x xs
    refine ⟨row, ?_, ?_⟩
    · unfold getCachedQuote
      rw [hx]
      exact hrow
    · have hrmem : row ∈ x :: xs := selectTop_mem quoteRowFresher _ row hrow
      rw [← hx] at hrmem
      have := (List.mem_filter.mp hrmem).2
      simp only [Bool.and_eq_true, beq_iff_eq, decide_eq_true_eq] at this
      exact ⟨this.1.1, this.1.2, this.2⟩
  · intro quoteTask providers qstore hstore t m now ttl row hcache
    simp only [getLatestQuote, Bool.false_eq_true, if_false, hcache]

/-- Fresh and stale quote rows used to witness C3 and C4. -/
def freshQuoteRow : QuoteRow :=
  { ticker := "MSFT", market := "NASDAQ", price := 420, currency := some "USD",
    as_of := 1000, source := "TWELVE_DATA", fetched_at := 1000,
    expires_at := 1060 }

theorem C3_witness :
    getLatestQuote (fun _ _ _ => .error (.providerError "network down"))
        [{ name := "TWELVE_DATA" }] [freshQuoteRow] [] "MSFT" "NASDAQ" false 1010 60 =
      (.ok { price := freshQuoteRow.price, currency := freshQuoteRow.currency,
             as_of := freshQuoteRow.as_of, source := freshQuoteRow.source,
             cached := true }, [freshQuoteRow], []) :=
  C3_getLatestQuote_fresh_cache_hit.2
    (fun _ _ _ => .error (.providerError "network down"))
    [{ name := "TWELVE_DATA" }] [freshQuoteRow] [] "MSFT" "NASDAQ" 1010 60
    freshQuoteRow (by decide)

theorem quoteRowStaler_trans : ∀ a b c : QuoteRow,
    quoteRowStaler a b = true → quoteRowStaler b c = true →
    quoteRowStaler a c = true := by
  intro a b c hab hbc
  simp only [quoteRowStaler, decide_eq_true_eq] at hab hbc ⊢
  omega

theorem quoteRowStaler_irrefl : ∀ a : QuoteRow, quoteRowStaler a a = false := by
  intro a
  simp [quoteRowStaler]

/-- C4: on provider-chain exhaustion (cache miss and every provider failing),
`getLatestQuote` returns the most recent cached quote regardless of expiry
(the row that no other row of the key beats in the as-of-then-fetched-at
order) marked `cached = true`; with no cached row at all it derives a quote
from the newest daily history row, substituting the `HISTORY` marker when the
stored source is absent; and only when neither exists does it propagate the
provider error. -/
theorem C4_getLatestQuote_exhausted_fallback :
    (∀ (quoteTask : Provider → String → String → Except Err QuoteResult)
       (providers : List Provider) (qstore : List QuoteRow)
       (hstore : List HistRow) (t m : String) (now ttl : Nat) (e : Err),
      getCachedQuote qstore t m now = none →
      fetchWithProviders (filterProvidersForMarket providers m)
          (fun p => quoteTask p t (resolveExchange m)) = .error e →
      ((∀ stale, getStaleQuote qstore t m = some stale →
          getLatestQuote quoteTask providers qstore hstore t m false now ttl =
            (.ok { price := stale.price, currency := stale.currency,
                   as_of := stale.as_of, source := stale.source, cached := true },
             qstore,
             providersTried (filterProvidersForMarket providers m)
               (fun p => quoteTask p t (resolveExchange m))))
        ∧ (getStaleQuote qstore t m = none →
           ∀ history, getLatestHistoryPrice hstore t m = some history →
             getLatestQuote quoteTask providers qstore hstore t m false now ttl =
               (.ok { price := history.price, currency := history.currency,
                      as_of := history.as_of,
                      source := jsOrS history.source "HISTORY", cached := true },
                qstore,
                providersTried (filterProvidersForMarket providers m)
                  (fun p => quoteTask p t (resolveExchange m))))
        ∧ (getStaleQuote qstore t m = none →
           getLatestHistoryPrice hstore t m = none →
             getLatestQuote quoteTask providers qstore hstore t m false now ttl =
               (.error e, qstore,
                providersTried (filterProvidersForMarket providers m)
                  (fun p => quoteTask p t (resolveExchange m))))))
    ∧ (∀ (qstore : List QuoteRow) (t m : String) (s : QuoteRow),
        getStaleQuote qstore t m = some s →
        s ∈ qstore ∧ s.ticker = t ∧ s.market = m
          ∧ ∀ r ∈ qstore, r.ticker = t → r.market = m →
              quoteRowStaler s r = false) := by
  constructor
  · intro quoteTask providers qstore hstore t m now ttl e hmiss hfail
    refine ⟨?_, ?_, ?_⟩
    · intro stale hstale
      simp only [getLatestQuote, Bool.false_eq_true, if_false, hmiss, hfail, hstale]
    · intro hstale history hhist
      simp only [getLatestQuote, Bool.false_eq_true, if_false, hmiss, hfail, hstale,
        hhist]
    · intro hstale hhist
      simp only [getLatestQuote, Bool.false_eq_true, if_false, hmiss, hfail, hstale,
        hhist]
  · intro qstore t m s hs
    have hsmem : s ∈ qstore.filter (fun r => r.ticker == t && r.market == m) :=
      selectTop_mem quoteRowStaler _ s hs
    have hprops := (List.mem_filter.mp hsmem).2
    simp only [Bool.and_eq_true, beq_iff_eq] at hprops
    refine ⟨(List.mem_filter.mp hsmem).1, hprops.1, hprops.2, ?_⟩
    intro r hr hrt hrm
    have hrmem : r ∈ qstore.filter (fun r => r.ticker == t && r.market == m) :=
      List.mem_filter.mpr ⟨hr, by simp [hrt, hrm]⟩
    have hne := List.ne_nil_of_mem hrmem
    obtain ⟨x, xs, hx⟩ := List.exists_cons_of_ne_nil hne
    obtain ⟨top, htop, _, hmax⟩ :=
      selectTop_spec quoteRowStaler quoteRowStaler_trans quoteRowStaler_irrefl x xs
    rw [← hx] at htop
    unfold getStaleQuote at hs
    rw [htop] at hs
    have hst : s = top := (Option.some.injEq _ _).mp hs.symm
    rw [hst]
    exact hmax r (hx ▸ hrmem)

/-- Expired quote row used to witness C4: its `expires_at` is in the past. -/
def staleQuoteRow : QuoteRow :=
  { ticker := "MSFT", market := "NASDAQ", price := 410, currency := some "USD",
    as_of := 900, source := "TWELVE_DATA", fetched_at := 900,
    expires_at := 960 }

theorem C4_witness :
    getLatestQuote (fun _ _ _ => .error (.providerError "provider down"))
        [{ name := "TWELVE_DATA" }] [staleQuoteRow] [] "MSFT" "NASDAQ" false 2000 60 =
      (.ok { price := staleQuoteRow.price, currency := staleQuoteRow.currency,
             as_of := staleQuoteRow.as_of, source := staleQuoteRow.source,
             cached := true }, [staleQuoteRow],
       providersTried (filterProvidersForMarket [{ name := "TWELVE_DATA" }] "NASDAQ")
         (fun p => (fun _ _ _ => (.error (.providerError "provider down") : Except Err QuoteResult)) p "MSFT" (resolveExchange "NASDAQ"))) :=
  ((C4_getLatestQuote_exhausted_fallback.1
      (fun _ _ _ => .error (.providerError "provider down"))
      [{ name := "TWELVE_DATA" }] [staleQuoteRow] [] "MSFT" "NASDAQ" 2000 60
      (.providerError "provider down") (by decide) rfl).1
    staleQuoteRow (by decide))


/-! ## History cache (`marketDataService.ts` lines 176-315) -/

/-- The `HistoryPoint` type of `providers/base.ts`. -/
structure HistoryPoint where
  date : Nat
  price : ℚ
  currency : Option String
deriving DecidableEq, Repr

/-- Insertion step of the `ORDER BY date` ascending sort. -/
def insertByDate (p : HistoryPoint) : List HistoryPoint → List HistoryPoint
  | [] => [p]
  | q :: rest => if p.date ≤ q.date then p :: q :: rest else q :: insertByDate p rest

/-- `ORDER BY date` ascending (insertion sort). -/
def sortByDate (l : List HistoryPoint) : List HistoryPoint :=
  l.foldr insertByDate []

/-- Embedding of `getHistoryRows` (`marketDataService.ts` lines 198-221): the
rows of the key with `date BETWEEN from AND to`, ascending by date. -/
def getHistoryRows (store : List HistRow) (ticker market interval : String)
    (fromDate toDate : Nat) : List HistoryPoint :=
  sortByDate ((store.filter (fun r =>
      r.ticker == ticker && r.market == market && r.interval == interval
        && decide (fromDate ≤ r.date) && decide (r.date ≤ toDate))).map
    (fun r => { date := r.date, price := r.price, currency := r.currency }))

/-- Embedding of `getCachedHistory` (`marketDataService.ts` lines 176-196):
the cached rows count as a hit only when the earliest is at or before `from`
and the latest is at or after `to` (full closed-interval coverage). -/
def getCachedHistory (store : List HistRow) (ticker market interval : String)
    (fromDate toDate : Nat) : Option (List HistoryPoint) :=
  match getHistoryRows store ticker market interval fromDate toDate with
  | [] => none
  | first :: rest =>
    if first.date ≤ fromDate ∧ toDate ≤ (rest.getLastD first).date
    then some (first :: rest) else none

/-- Embedding of `cacheHistoryRows` (`marketDataService.ts` lines 250-276):
upsert every fetched row on the key
`(ticker, market, source, interval, date)`. -/
def cacheHistoryRows (store : List HistRow) (ticker market interval : String)
    (rows : List HistoryPoint) (source : String) (now : Nat) : List HistRow :=
  rows.foldl (fun st row =>
    st.filter (fun r =>
        !(r.ticker == ticker && r.market == market && r.source == source
          && r.interval == interval && r.date == row.date))
      ++ [{ ticker := ticker, market := market, interval := interval,
            price := row.price, currency := row.currency, date := row.date,
            source := source, fetched_at := now }]) store

/-- Embedding of `getHistory` (`marketDataService.ts` lines 278-315).  The
returned triple is (rows-and-source or error, updated `price_history` store,
trace of providers whose `getHistory` was invoked). -/
def getHistory
    (histTask : Provider → String → String → Nat → Nat → String →
      Except Err (List HistoryPoint))
    (providers : List Provider) (store : List HistRow) (ticker market : String)
    (fromDate toDate : Nat) (interval : String) (forceRefresh : Bool) (now : Nat) :
    Except Err (List HistoryPoint × String) × List HistRow × List Provider :=
  let cached := if forceRefresh then none
    else getCachedHistory store ticker market interval fromDate toDate
  match cached with
  | some rows => (.ok (rows, "CACHE"), store, [])
  | none =>
    let marketProviders := filterProvidersForMarket providers market
    let exchange := resolveExchange market
    let task := fun p => histTask p ticker exchange fromDate toDate interval
    match fetchWithProviders marketProviders task with
    | .ok (p, result) =>
      let newStore := cacheHistoryRows store ticker market interval result p.name now
      let rows := (getCachedHistory newStore ticker market interval
        fromDate toDate).getD result
      (.ok (rows, p.name), newStore, providersTried marketProviders task)
    | .error e => (.error e, store, providersTried marketProviders task)

/-- Cached daily rows for days 101-110 (standing for 2024-01-01 through
2024-01-10), used in the C2 coverage example. -/
def c2Store : List HistRow :=
  (List.range 10).map (fun i =>
    { ticker := "TSLA", market := "NASDAQ", interval := "1d", price := 1,
      currency := some "USD", date := 101 + i, source := "STOOQ",
      fetched_at := 400 })

/-- Provider history rows returned in the C2 refetch example. -/
def c2Fetched : List HistoryPoint :=
  [{ date := 112, price := 2, currency := some "USD" },
   { date := 120, price := 3, currency := some "USD" }]

/-- C2: history coverage is all-or-nothing.  A cached-history lookup succeeds
exactly when the cached rows inside `[from, to]` are non-empty with earliest
date at or before `from` and latest date at or after `to`, and then it returns
exactly those rows; any partial overlap is a miss for the whole range: with
rows cached for days 101-110 (2024-01-01 through 2024-01-10), a request for
[105, 120] (2024-01-05 through 2024-01-20) misses the cache and `getHistory`
invokes the provider chain instead of serving a partial merge from the
cache. -/
theorem C2_getHistory_coverage_all_or_nothing :
    (∀ (store : List HistRow) (t m i : String) (f toD : Nat)
       (rs : List HistoryPoint),
      getCachedHistory store t m i f toD = some rs →
      rs = getHistoryRows store t m i f toD
        ∧ ∃ first rest, rs = first :: rest ∧ first.date ≤ f
            ∧ toD ≤ (rest.getLastD first).date)
    ∧ (∀ (store : List HistRow) (t m i : String) (f toD : Nat)
       (first : HistoryPoint) (rest : List HistoryPoint),
      getHistoryRows store t m i f toD = first :: rest →
      first.date ≤ f → toD ≤ (rest.getLastD first).date →
      getCachedHistory store t m i f toD = some (first :: rest))
    ∧ (getCachedHistory c2Store "TSLA" "NASDAQ" "1d" 105 120 = none
       ∧ (getHistory (fun _ _ _ _ _ _ => .ok c2Fetched) [{ name := "STOOQ" }]
            c2Store "TSLA" "NASDAQ" 105 120 "1d" false 500).2.2
          = [{ name := "STOOQ" }]) := by
  refine ⟨?_, ?_, by decide, by decide⟩
  · intro store t m i f toD rs h
    unfold getCachedHistory at h
    cases hrows : getHistoryRows store t m i f toD with
    | nil =>
      rw [hrows] at h
      exact Option.noConfusion h
    | cons first rest =>
      rw [hrows] at h
      have h' : (if first.date ≤ f ∧ toD ≤ (rest.getLastD first).date
          then some (first :: rest) else none) = some rs := h
      by_cases hcov : first.date ≤ f ∧ toD ≤ (rest.getLastD first).date
      · rw [if_pos hcov] at h'
        injection h' with heq
        refine ⟨?_, first, rest, heq.symm, hcov.1, hcov.2⟩
        rw [← heq]
      · rw [if_neg hcov] at h'
        exact Option.noConfusion h'
  · intro store t m i f toD first rest hrows h1 h2
    unfold getCachedHistory
    rw [hrows]
    show (if first.date ≤ f ∧ toD ≤ (rest.getLastD first).date
        then some (first :: rest) else none) = some (first :: rest)
    exact if_pos ⟨h1, h2⟩

theorem C2_witness :
    getCachedHistory c2Store "TSLA" "NASDAQ" "1d" 101 110 =
      some (getHistoryRows c2Store "TSLA" "NASDAQ" "1d" 101 110) := by
  have h := C2_getHistory_coverage_all_or_nothing.2.1 c2Store "TSLA" "NASDAQ" "1d"
    101 110 { date := 101, price := 1, currency := some "USD" }
    ((List.range 9).map (fun i =>
      { date := 102 + i, price := 1, currency := some "USD" }))
    (by decide) (by decide) (by decide)
  rw [h]
  decide


/-! ## FX cache (`fxService.ts`) -/

/-- A row of the `fx_rates` table (natural key `(base, quote, source)`). -/
structure FxRow where
  base : String
  quote : String
  rate : ℚ
  source : String
  fetched_at : Nat
  expires_at : Nat
deriving DecidableEq, Repr

/-- Strict order of `ORDER BY expires_at DESC LIMIT 1`. -/
def fxRowFresher (b r : FxRow) : Bool :=
  decide (b.expires_at < r.expires_at)

/-- Embedding of `getCachedFxRate`: freshest non-expired rate of the pair. -/
def getCachedFxRate (store : List FxRow) (base quote : String) (now : Nat) :
    Option FxRow :=
  selectTop fxRowFresher
    (store.filter (fun r =>
      r.base == base && r.quote == quote && decide (now < r.expires_at)))

/-- Strict order of `ORDER BY fetched_at DESC LIMIT 1`. -/
def fxRowLater (b r : FxRow) : Bool :=
  decide (b.fetched_at < r.fetched_at)

/-- Embedding of `getStaleFxRate`: most recently fetched rate of the pair,
regardless of expiry. -/
def getStaleFxRate (store : List FxRow) (base quote : String) : Option FxRow :=
  selectTop fxRowLater
    (store.filter (fun r => r.base == base && r.quote == quote))

/-- Embedding of `cacheFxRate`: `INSERT OR REPLACE` on `(base, quote, source)`
with `fetched_at = now` and `expires_at = now + ttlSeconds`. -/
def cacheFxRate (store : List FxRow) (base quote : String) (rate : ℚ)
    (source : String) (now ttlSeconds : Nat) : List FxRow :=
  store.filter (fun r =>
      !(r.base == base && r.quote == quote && r.source == source))
    ++ [{ base := base, quote := quote, rate := rate, source := source,
          fetched_at := now, expires_at := now + ttlSeconds }]

/-- Embedding of `getFxRate` (`fxService.ts` lines 252-283): identity
short-circuit, fresh cache, then the FX subchain (the configured providers
minus `STOOQ`, with `FRANKFURTER` appended), then the stale fallback; the
error propagates only when all of these fail.  `fxTask` models
`provider.getExchangeRate` and yields the `rate` field of its result (the
only field the source reads). -/
def getFxRate (fxTask : Provider → String → String → Except Err ℚ)
    (providers : List Provider) (store : List FxRow) (base quote : String)
    (now ttlSeconds : Nat) : Except Err ℚ × List FxRow :=
  if base == quote then (.ok 1, store)
  else
    match getCachedFxRate store base quote now with
    | some cached => (.ok cached.rate, store)
    | none =>
      let fxProviders := providers.filter (fun p => !(p.name == "STOOQ"))
        ++ [{ name := "FRANKFURTER" }]
      match fetchWithProviders fxProviders (fun p => fxTask p base quote) with
      | .ok (p, rate) =>
        (.ok rate, cacheFxRate store base quote rate p.name now ttlSeconds)
      | .error e =>
        match getStaleFxRate store base quote with
        | some stale => (.ok stale.rate, store)
        | none => (.error e, store)

/-! ## Performance series (`portfolioService.ts`) -/

/-- A row of the `holdings` table. -/
structure HoldingRow where
  id : Nat
  portfolio_id : Nat
  ticker : String
  market : String
  buy_date : Nat
  buy_price : ℚ
  quantity : ℚ
  created_at : Nat
deriving DecidableEq, Repr

/-- Embedding of `normalizeDate` (`portfolioService.ts` lines 34-37): inputs
of this model are already UTC calendar-day numbers, so the
ISO-datetime-to-calendar-date normalization is the identity. -/
def normalizeDate (d : Nat) : Nat := d

/-- Embedding of `createDateRange` (lines 41-50): every calendar day from
`fromDate` to `toDate` inclusive, empty when `fromDate > toDate`. -/
def createDateRange (fromDate toDate : Nat) : List Nat :=
  (List.range (toDate + 1 - fromDate)).map (fun i => fromDate + i)

/-- The market currency of a holding:
`getMarketDefinition(holding.market)?.currency || 'USD'`. -/
def marketCurrency (h : HoldingRow) : String :=
  match getMarketDefinition h.market with
  | some md => jsOrS md.currency "USD"
  | none => "USD"

/-- JS `Array.from(new Set(l))`: first occurrences, in insertion order. -/
def jsSetOf (l : List String) : List String :=
  l.foldl (fun acc c => if acc.contains c then acc else acc ++ [c]) []

/-- The `Promise.all(currencies.map(resolveRate))` warm-up of
`getPerformanceSeries` (lines 260-273): one FX-rate resolution per distinct
currency, the base currency short-circuiting to 1 without a cache entry; a
failed resolution rejects the whole call.  `fx` models `getFxRate` from an
(uppercased) holding currency into the normalized base. -/
def buildRateCache (fx : String → Except Err ℚ) (normalizedBase : String) :
    List String → Except Err (List (String × ℚ))
  | [] => .ok []
  | c :: rest =>
    let normalizedFrom := upperStr c
    if normalizedFrom == normalizedBase then buildRateCache fx normalizedBase rest
    else
      match fx normalizedFrom with
      | .error e => .error e
      | .ok rate =>
        match buildRateCache fx normalizedBase rest with
        | .error e => .error e
        | .ok cache => .ok ((normalizedFrom, rate) :: cache)

/-- The per-holding converted price-by-date map of lines 276-304: the
holding's history rows converted at its FX rate, plus the synthetic
buy-price anchor at `max(buy_date, startDate)` when the fetch failed, came
back empty, or starts after that date.  Represented as the JS-`Map`
association list (later bindings win). -/
def holdingPriceMap (histFetch : HoldingRow → Except Err (List HistoryPoint))
    (fxRate : ℚ) (startDate : Nat) (h : HoldingRow) : List (Nat × ℚ) :=
  let fallbackDate := if h.buy_date > startDate then h.buy_date else startDate
  match histFetch h with
  | .error _ => [(fallbackDate, h.buy_price * fxRate)]
  | .ok rows =>
    let priceByDate := rows.map (fun row => (row.date, row.price * fxRate))
    match rows.head? with
    | none => priceByDate ++ [(fallbackDate, h.buy_price * fxRate)]
    | some first =>
      if first.date > fallbackDate
      then priceByDate ++ [(fallbackDate, h.buy_price * fxRate)]
      else priceByDate

/-- A point of the returned performance series. -/
structure PerfPoint where
  date : Nat
  value : ℚ
deriving DecidableEq, Repr

/-- The result object of `getPerformanceSeries`; for an empty portfolio the
source echoes the raw optional `from`/`to` query values, hence the `Option`
fields. -/
structure PerfResult where
  series : List PerfPoint
  fromDate : Option Nat
  toDate : Option Nat
deriving DecidableEq, Repr

/-- One date of the aggregation loop (lines 310-327): fold over the holdings
in order, skipping holdings not yet bought, updating the `lastKnown` price
map from the holding's price map, and accumulating
`price * quantity` into the total. -/
def perfDateStep (holdings : List HoldingRow)
    (histMap : List (Nat × List (Nat × ℚ))) (rateCache : List (String × ℚ))
    (lastKnown : List (Nat × ℚ)) (date : Nat) : List (Nat × ℚ) × ℚ :=
  holdings.foldl
    (fun acc h =>
      if date < h.buy_date then acc
      else
        let priceMap := lookupLast histMap h.id
        let lk := match priceMap.bind (fun pm => lookupLast pm date) with
          | some p => acc.1 ++ [(h.id, p)]
          | none => acc.1
        let rate := (lookupLast rateCache (marketCurrency h)).getD 1
        let price := (lookupLast lk h.id).getD (h.buy_price * rate)
        (lk, acc.2 + price * h.quantity))
    (lastKnown, 0)

/-- The date loop of lines 307-327, carrying `lastKnown` across dates. -/
def perfLoop (holdings : List HoldingRow)
    (histMap : List (Nat × List (Nat × ℚ))) (rateCache : List (String × ℚ)) :
    List Nat → List (Nat × ℚ) → List PerfPoint
  | [], _ => []
  | date :: rest, lastKnown =>
    let step := perfDateStep holdings histMap rateCache lastKnown date
    { date := date, value := step.2 }
      :: perfLoop holdings histMap rateCache rest step.1

/-- The `reduce` of lines 248-250: the earliest holding buy date. -/
def earliestBuyDate (h0 : HoldingRow) (holdings : List HoldingRow) : Nat :=
  holdings.foldl (fun mn h => if h.buy_date < mn then h.buy_date else mn)
    h0.buy_date

/-- The resolved window start of line 252: the caller's `from`, defaulting to
the earliest buy date, normalized. -/
def resolvedStartDate (h0 : HoldingRow) (holdings : List HoldingRow)
    (fromDate : Option Nat) : Nat :=
  normalizeDate (fromDate.getD (earliestBuyDate h0 holdings))

/-- The resolved window end of line 253: the caller's `to`, defaulting to
today, normalized. -/
def resolvedEndDate (toDate : Option Nat) (today : Nat) : Nat :=
  normalizeDate (toDate.getD today)

/-- Embedding of `getPerformanceSeries` (`portfolioService.ts` lines
230-330).  `histFetch` models the `rows` obtained through `getHistory` for a
holding over the resolved window (the `try` of lines 279-298); `fx` models
`getFxRate` from an uppercased holding currency into the normalized base, as
injected dependencies of the service.  `fromDate`/`toDate` are the optional
query parameters and `today` the current UTC day. -/
def getPerformanceSeries
    (histFetch : HoldingRow → Except Err (List HistoryPoint))
    (fx : String → Except Err ℚ) (holdings : List HoldingRow)
    (fromDate toDate : Option Nat) (baseCurrency : String) (today : Nat) :
    Except Err PerfResult :=
  match holdings with
  | [] => .ok { series := [], fromDate := fromDate, toDate := toDate }
  | h0 :: rest =>
    let startDate := resolvedStartDate h0 (h0 :: rest) fromDate
    let endDate := resolvedEndDate toDate today
    let dates := createDateRange startDate endDate
    let normalizedBase := upperStr baseCurrency
    let currencies := jsSetOf ((h0 :: rest).map marketCurrency)
    match buildRateCache fx normalizedBase currencies with
    | .error e => .error e
    | .ok rateCache =>
      let histMap := (h0 :: rest).map (fun h =>
        let fxRate := if upperStr (marketCurrency h) == normalizedBase then 1
          else (lookupLast rateCache (upperStr (marketCurrency h))).getD 1
        (h.id, holdingPriceMap histFetch fxRate startDate h))
      .ok { series := perfLoop (h0 :: rest) histMap rateCache dates [],
            fromDate := some startDate, toDate := some endDate }


theorem perfLoop_map_date (holdings : List HoldingRow)
    (histMap : List (Nat × List (Nat × ℚ))) (rateCache : List (String × ℚ)) :
    ∀ (dates : List Nat) (lastKnown : List (Nat × ℚ)),
      (perfLoop holdings histMap rateCache dates lastKnown).map
          (fun pt => pt.date) = dates := by
  intro dates
  induction dates with
  | nil => intro lastKnown; rfl
  | cons d rest ih =>
    intro lastKnown
    simp only [perfLoop, List.map_cons, ih]

theorem createDateRange_length (f t : Nat) :
    (createDateRange f t).length = t + 1 - f := by
  simp [createDateRange]

theorem createDateRange_get (f t i : Nat)
    (hi : i < (createDateRange f t).length) :
    (createDateRange f t).get ⟨i, hi⟩ = f + i := by
  simp [createDateRange]

/-- Holding, environments and expected output for the concrete
performance-series scenarios: a single NASDAQ holding bought on day 5 at
price 7 with quantity 2, history fetch failing, base currency USD, window
[3, 8]. -/
def perfHolding : HoldingRow :=
  { id := 1, portfolio_id := 1, ticker := "TSLA", market := "NASDAQ",
    buy_date := 5, buy_price := 7, quantity := 2, created_at := 1 }

/-- History environment whose fetch always fails. -/
def perfHistFail : HoldingRow → Except Err (List HistoryPoint) :=
  fun _ => .error (.providerError "no history")

/-- FX environment whose resolution always fails (never reached when every
holding currency equals the base). -/
def perfFxFail : String → Except Err ℚ :=
  fun _ => .error (.providerError "fx down")

/-- Expected series of the concrete scenario: zero before the buy date, then
a flat line at buy price times quantity. -/
def perfOut : PerfResult :=
  { series := [{ date := 3, value := 0 }, { date := 4, value := 0 },
               { date := 5, value := 14 }, { date := 6, value := 14 },
               { date := 7, value := 14 }, { date := 8, value := 14 }],
    fromDate := some 3, toDate := some 8 }

/-- Evaluation of the concrete single-holding scenario: history failing, base
currency equal to the holding currency, window [3, 8]. -/
theorem perfConcrete_eval :
    getPerformanceSeries perfHistFail perfFxFail [perfHolding]
        (some 3) (some 8) "USD" 20 = .ok perfOut := by
  simp only [getPerformanceSeries, resolvedStartDate, resolvedEndDate, normalizeDate,
    earliestBuyDate, createDateRange, jsSetOf, marketCurrency, buildRateCache,
    holdingPriceMap, perfLoop, perfDateStep, lookupLast, perfHolding, perfHistFail,
    perfFxFail, perfOut, upperStr, jsOrS, getMarketDefinition, marketIndex,
    SUPPORTED_MARKETS]
  norm_num [List.foldl, List.range, List.range.loop, List.map]

/-- C5 (amended): for a portfolio with at least one holding,
`getPerformanceSeries` cannot fail once every required FX rate resolves (in
particular whenever each holding's market currency equals the base); a
holding whose history fetch fails entirely contributes exactly one synthetic
point priced at its buy price in base currency, anchored at
`max(buy_date, from)`; concretely this yields a flat buy-price line rather
than an error.  (An unresolvable FX rate for a non-base currency still
rejects the call — see the counterexample.) -/
theorem C5_getPerformanceSeries_resilient :
    (∀ (histFetch : HoldingRow → Except Err (List HistoryPoint))
       (fx : String → Except Err ℚ) (h0 : HoldingRow) (rest : List HoldingRow)
       (fromDate toDate : Option Nat) (baseCurrency : String) (today : Nat)
       (rc : List (String × ℚ)),
      buildRateCache fx (upperStr baseCurrency)
          (jsSetOf ((h0 :: rest).map marketCurrency)) = .ok rc →
      ∃ out, getPerformanceSeries histFetch fx (h0 :: rest) fromDate toDate
          baseCurrency today = .ok out)
    ∧ (∀ (histFetch : HoldingRow → Except Err (List HistoryPoint))
       (fxRate : ℚ) (startDate : Nat) (h : HoldingRow) (e : Err),
      histFetch h = .error e →
      holdingPriceMap histFetch fxRate startDate h =
        [(if h.buy_date > startDate then h.buy_date else startDate,
          h.buy_price * fxRate)])
    ∧ getPerformanceSeries perfHistFail perfFxFail [perfHolding]
        (some 3) (some 8) "USD" 20 = .ok perfOut := by
  refine ⟨?_, ?_, perfConcrete_eval⟩
  · intro histFetch fx h0 rest fromDate toDate baseCurrency today rc hrc
    simp only [getPerformanceSeries]
    rw [hrc]
    exact ⟨_, rfl⟩
  · intro histFetch fxRate startDate h e he
    simp only [holdingPriceMap, he]

theorem C5_witness :
    ∃ out, getPerformanceSeries perfHistFail perfFxFail [perfHolding]
        (some 3) (some 8) "USD" 20 = .ok out :=
  C5_getPerformanceSeries_resilient.1 perfHistFail perfFxFail perfHolding []
    (some 3) (some 8) "USD" 20 [] rfl

/-- FX environment of the C5 counterexample: the embedded `getFxRate` run
against failing FX providers and an empty `fx_rates` store, so resolution of
any non-base currency rejects. -/
def c5FxDown : String → Except Err ℚ :=
  fun currency =>
    (getFxRate (fun _ _ _ => .error (.providerError "fx providers down"))
      [{ name := "TWELVE_DATA" }] [] currency "USD" 1000 3600).1

/-- Holding of the C5 counterexample: Warsaw market, currency PLN ≠ USD. -/
def c5Holding : HoldingRow :=
  { id := 1, portfolio_id := 1, ticker := "KGH", market := "XWAR",
    buy_date := 10, buy_price := 100, quantity := 1, created_at := 1 }

theorem C5_counterexample :
    getPerformanceSeries perfHistFail c5FxDown [c5Holding]
        (some 10) (some 12) "USD" 20
      = .error (.providerError "fx providers down") := by
  rfl

theorem C6_series_one_point_per_day :
    ∀ (histFetch : HoldingRow → Except Err (List HistoryPoint))
      (fx : String → Except Err ℚ) (h0 : HoldingRow) (rest : List HoldingRow)
      (fromDate toDate : Option Nat) (baseCurrency : String) (today : Nat)
      (out : PerfResult),
      getPerformanceSeries histFetch fx (h0 :: rest) fromDate toDate
          baseCurrency today = .ok out →
      out.series.map (fun pt => pt.date)
          = createDateRange (resolvedStartDate h0 (h0 :: rest) fromDate)
              (resolvedEndDate toDate today)
        ∧ out.series.length
            = resolvedEndDate toDate today + 1
                - resolvedStartDate h0 (h0 :: rest) fromDate
        ∧ ∀ i (hi : i < (createDateRange (resolvedStartDate h0 (h0 :: rest) fromDate)
              (resolvedEndDate toDate today)).length),
            (createDateRange (resolvedStartDate h0 (h0 :: rest) fromDate)
                (resolvedEndDate toDate today)).get ⟨i, hi⟩
              = resolvedStartDate h0 (h0 :: rest) fromDate + i := by
  intro histFetch fx h0 rest fromDate toDate baseCurrency today out h
  simp only [getPerformanceSeries] at h
  cases hrc : buildRateCache fx (upperStr baseCurrency)
      (jsSetOf ((h0 :: rest).map marketCurrency)) with
  | error e =>
    rw [hrc] at h
    exact Except.noConfusion h
  | ok rc =>
    rw [hrc] at h
    injection h with h
    have hdates : out.series.map (fun pt => pt.date)
        = createDateRange (resolvedStartDate h0 (h0 :: rest) fromDate)
            (resolvedEndDate toDate today) := by
      rw [← h]
      exact perfLoop_map_date _ _ _ _ _
    refine ⟨hdates, ?_, ?_⟩
    · have := congrArg List.length hdates
      rw [List.length_map] at this
      rw [this, createDateRange_length]
    · intro i hi
      exact createDateRange_get _ _ i hi

theorem C6_witness :
    perfOut.series.length
        = resolvedEndDate (some 8) 20 + 1
            - resolvedStartDate perfHolding [perfHolding] (some 3)
      ∧ perfOut.series.map (fun pt => pt.date)
          = createDateRange (resolvedStartDate perfHolding [perfHolding] (some 3))
              (resolvedEndDate (some 8) 20) :=
  ⟨(C6_series_one_point_per_day perfHistFail perfFxFail perfHolding []
      (some 3) (some 8) "USD" 20 perfOut perfConcrete_eval).2.1,
   (C6_series_one_point_per_day perfHistFail perfFxFail perfHolding []
      (some 3) (some 8) "USD" 20 perfOut perfConcrete_eval).1⟩

/-- C7 (amended): when the portfolio has at least one holding, the result of
`getPerformanceSeries` carries the resolved, normalized window bounds (`from`
defaulting to the earliest holding buy date, `to` defaulting to today); when
the portfolio has no holdings, the call instead echoes back the caller's raw
`from`/`to` unresolved, with an empty series. -/
theorem C7_resolved_window_bounds :
    (∀ (histFetch : HoldingRow → Except Err (List HistoryPoint))
       (fx : String → Except Err ℚ) (h0 : HoldingRow) (rest : List HoldingRow)
       (fromDate toDate : Option Nat) (baseCurrency : String) (today : Nat)
       (out : PerfResult),
      getPerformanceSeries histFetch fx (h0 :: rest) fromDate toDate
          baseCurrency today = .ok out →
      out.fromDate = some (resolvedStartDate h0 (h0 :: rest) fromDate)
        ∧ out.toDate = some (resolvedEndDate toDate today))
    ∧ (∀ (histFetch : HoldingRow → Except Err (List HistoryPoint))
       (fx : String → Except Err ℚ) (fromDate toDate : Option Nat)
       (baseCurrency : String) (today : Nat),
      getPerformanceSeries histFetch fx [] fromDate toDate baseCurrency today
        = .ok { series := [], fromDate := fromDate, toDate := toDate }) := by
  constructor
  · intro histFetch fx h0 rest fromDate toDate baseCurrency today out h
    simp only [getPerformanceSeries] at h
    cases hrc : buildRateCache fx (upperStr baseCurrency)
        (jsSetOf ((h0 :: rest).map marketCurrency)) with
    | error e =>
      rw [hrc] at h
      exact Except.noConfusion h
    | ok rc =>
      rw [hrc] at h
      injection h with h
      rw [← h]
      exact ⟨rfl, rfl⟩
  · intro histFetch fx fromDate toDate baseCurrency today
    rfl

theorem C7_witness :
    perfOut.fromDate = some (resolvedStartDate perfHolding [perfHolding] (some 3))
      ∧ perfOut.toDate = some (resolvedEndDate (some 8) 20) :=
  C7_resolved_window_bounds.1 perfHistFail perfFxFail perfHolding []
    (some 3) (some 8) "USD" 20 perfOut perfConcrete_eval

theorem C7_counterexample :
    getPerformanceSeries perfHistFail perfFxFail [] none none "USD" 20000
        = .ok { series := [], fromDate := none, toDate := none }
      ∧ (none : Option Nat) ≠ some (resolvedEndDate none 20000) :=
  ⟨rfl, by decide⟩

end Finansista
